import Mathlib

/-!
Shallow embedding of the kiliai browser audio-translation client.

Embedded sources:
* `src/utils/audio.ts` — the PCM encoder: `encode` (manual base64 via
  `String.fromCharCode` + `btoa`) and `createBlob` (Float32 → Int16 PCM →
  base64 payload with a fixed MIME descriptor).
* `src/unnamed/part_000` — the React `App` component: the recording
  lifecycle (`startRecording`, `stopRecording`, `handleToggleRecording`),
  the live-session callbacks (`onopen`, `onaudioprocess`, `onmessage`) and
  the one-shot file path (`handleFileUpload`).

Modeling conventions:
* Audio samples are modeled as rationals.  The JavaScript expression
  `data[i] * 32768` multiplies a Float32 (widened to Float64) by 2^15; a
  multiplication by a power of two is exact in binary floating point for
  every finite Float32 input, so the rational product models it exactly.
* A JavaScript `Int16Array` element store applies ECMA-262 `ToInt16`:
  truncate toward zero, then reduce modulo 2^16; the stored bit pattern is
  that residue, and the `Uint8Array` view of the buffer reads it in
  little-endian byte order.
* `btoa` (HTML spec) rejects code units above 255 and otherwise emits the
  RFC 4648 alphabet 3 input bytes at a time, with `=` padding.  The binary
  string built by `encode`'s `String.fromCharCode` loop has exactly the
  byte values as code units, all below 256, so `btoa`'s range check always
  passes on `encode`'s inputs; we model the emitted characters directly.
* React component state (`useState` values, `useRef` cells) is collected
  in one `AppState` record; each event handler becomes a total function on
  it, mirroring the single-threaded cooperative event-loop of the browser.
  A `useState` constant read inside a closure is the value from the render
  that created the closure, not the live value; where this matters (the
  `isRecording` test inside `onaudioprocess`) the captured value is an
  explicit parameter.
-/

namespace Kiliai

/-! ### Base64, from `encode` in `src/utils/audio.ts` -/

/-- The RFC 4648 base64 alphabet, indexed 0–63 (out-of-range inputs give a
placeholder; they never occur for the sextet values produced below). -/
def b64Char (n : ℕ) : Char :=
  if n < 26 then Char.ofNat (65 + n)
  else if n < 52 then Char.ofNat (97 + (n - 26))
  else if n < 62 then Char.ofNat (48 + (n - 52))
  else if n = 62 then '+'
  else '/'

/-- Character emission of `btoa` (HTML standard): consume three code units
at a time, treat them as one 24-bit number, emit four alphabet characters;
a trailing group of one or two bytes is padded with `=`. -/
def btoaChunks : List ℕ → List Char
  | [] => []
  | [b0] =>
    let v := b0 * 65536
    [b64Char (v / 262144), b64Char (v / 4096 % 64), '=', '=']
  | [b0, b1] =>
    let v := b0 * 65536 + b1 * 256
    [b64Char (v / 262144), b64Char (v / 4096 % 64), b64Char (v / 64 % 64), '=']
  | b0 :: b1 :: b2 :: rest =>
    let v := b0 * 65536 + b1 * 256 + b2
    b64Char (v / 262144) :: b64Char (v / 4096 % 64) :: b64Char (v / 64 % 64) ::
      b64Char (v % 64) :: btoaChunks rest

/-- The `encode` function of `src/utils/audio.ts`: build a binary string
whose code units are the byte values (`String.fromCharCode` loop) and pass
it to `btoa`.  Code units coming from a `Uint8Array` are always below 256,
so `btoa`'s range check passes and the result is its character stream. -/
def encode (bytes : List ℕ) : String :=
  ⟨btoaChunks bytes⟩

/-! ### PCM conversion, from `createBlob` in `src/utils/audio.ts` -/

/-- ECMA-262 truncation toward zero (`ToIntegerOrInfinity`) of a finite
number, on the exact rational model of the float value. -/
def jsTrunc (q : ℚ) : ℤ :=
  if 0 ≤ q then ⌊q⌋ else ⌈q⌉

/-- The 16 stored bits of a JavaScript `Int16Array` element assigned the
finite number `q` (ECMA-262 `ToInt16`): truncate toward zero, reduce
modulo 2^16; the residue is the two's-complement bit pattern. -/
def toInt16Bits (q : ℚ) : ℕ :=
  ((jsTrunc q) % 65536).toNat

/-- Little-endian byte pair of one stored `Int16Array` element, as read
back through the `Uint8Array` view of the buffer. -/
def int16ElemBytes (q : ℚ) : List ℕ :=
  [toInt16Bits q % 256, toInt16Bits q / 256]

/-- Byte content of the `Int16Array` buffer built in `createBlob`
(audio.ts lines 24–28): `int16[i] = data[i] * 32768` for each sample, then
the raw little-endian bytes in sample order. -/
def pcmBytes (data : List ℚ) : List ℕ :=
  data.flatMap (fun s => int16ElemBytes (s * 32768))

/-- The `Blob` record handed to the session API (`@google/genai` shape). -/
structure GenaiBlob where
  data : String
  mimeType : String
deriving DecidableEq

/-- The `createBlob` function of `src/utils/audio.ts`: convert the frame
to 16-bit PCM and base64-encode the buffer bytes, with the fixed MIME
descriptor. -/
def createBlob (data : List ℚ) : GenaiBlob :=
  { data := encode (pcmBytes data), mimeType := "audio/pcm;rate=16000" }

/-! ### Spec-side definitions

The claims compare the source-derived functions above against definitions
written from the specification's words: RFC 4648 base64 described at the
bit level, and the spec's description of the float-to-int16 conversion. -/

/-- Big-endian bit list of width `w` for `n` (the low `w` bits of `n`,
most significant first). -/
def natBits : ℕ → ℕ → List Bool
  | 0, _ => []
  | w + 1, n => natBits w (n / 2) ++ [decide (n % 2 = 1)]

/-- Value of a big-endian bit list. -/
def bitsToNat (l : List Bool) : ℕ :=
  l.foldl (fun a b => 2 * a + cond b 1 0) 0

/-- Split a bit stream into 6-bit groups, the last group possibly
shorter. -/
def chunk6 : List Bool → List (List Bool)
  | [] => []
  | b :: bs => ((b :: bs).take 6) :: chunk6 ((b :: bs).drop 6)
termination_by l => l.length
decreasing_by simp [List.length_drop]; omega

/-- Value of a 6-bit group, zero-padding a short final group on the
right, as RFC 4648 prescribes. -/
def sextetVal (g : List Bool) : ℕ :=
  bitsToNat (g ++ List.replicate (6 - g.length) false)

/-- RFC 4648 base64, following the spec's words: concatenate the 8-bit
big-endian bit patterns of the bytes, split into 6-bit groups (the final
group zero-padded on the right), map each group through the alphabet. -/
def rfcChars (bytes : List ℕ) : List Char :=
  (chunk6 (bytes.flatMap (natBits 8))).map (fun g => b64Char (sextetVal g))

/-- RFC 4648 base64 text: the encoded characters followed by enough `=`
padding to reach a multiple of four characters. -/
def base64RFC (bytes : List ℕ) : String :=
  ⟨rfcChars bytes ++ List.replicate ((4 - (rfcChars bytes).length % 4) % 4) '='⟩

/-- Sextet value of one base64 alphabet character. -/
def b64CharVal (c : Char) : Option ℕ :=
  if 'A' ≤ c ∧ c ≤ 'Z' then some (c.toNat - 65)
  else if 'a' ≤ c ∧ c ≤ 'z' then some (c.toNat - 97 + 26)
  else if '0' ≤ c ∧ c ≤ '9' then some (c.toNat - 48 + 52)
  else if c = '+' then some 62
  else if c = '/' then some 63
  else none

/-- Standard base64 decoding of a character stream, four characters at a
time, honouring `=` padding; `none` on any malformed input. -/
def b64decodeChunks : List Char → Option (List ℕ)
  | [] => some []
  | c0 :: c1 :: c2 :: c3 :: rest =>
    if c2 = '=' ∧ c3 = '=' ∧ rest = [] then
      match b64CharVal c0, b64CharVal c1 with
      | some s0, some s1 => some [s0 * 4 + s1 / 16]
      | _, _ => none
    else if c3 = '=' ∧ rest = [] then
      match b64CharVal c0, b64CharVal c1, b64CharVal c2 with
      | some s0, some s1, some s2 =>
        some [s0 * 4 + s1 / 16, s1 % 16 * 16 + s2 / 4]
      | _, _, _ => none
    else
      match b64CharVal c0, b64CharVal c1, b64CharVal c2, b64CharVal c3,
          b64decodeChunks rest with
      | some s0, some s1, some s2, some s3, some bs =>
        some ((s0 * 4 + s1 / 16) :: (s1 % 16 * 16 + s2 / 4) ::
          (s2 % 4 * 64 + s3) :: bs)
      | _, _, _, _, _ => none
  | _ => none

/-- Standard base64 decoding of a string. -/
def b64decode (s : String) : Option (List ℕ) :=
  b64decodeChunks s.data

/-- Truncation toward zero in the claim's words: drop the fractional part,
keeping the sign (the floor of the absolute value, signed). -/
def truncTowardZero (q : ℚ) : ℤ :=
  Int.sign q.num * ⌊|q|⌋

/-- Wrap an integer into a signed 16-bit container (two's complement, no
saturation), in the claim's words. -/
def wrapToInt16 (t : ℤ) : ℤ :=
  (t + 32768) % 65536 - 32768

/-- Byte pair of one sample in the claim's words: multiply by 32768,
truncate toward zero, wrap into a signed 16-bit container, emit the
container's two's-complement bits as little-endian bytes. -/
def specSampleBytes (s : ℚ) : List ℕ :=
  [((wrapToInt16 (truncTowardZero (s * 32768))) % 65536).toNat % 256,
   ((wrapToInt16 (truncTowardZero (s * 32768))) % 65536).toNat / 256]

/-- Full PCM byte stream in the claim's words: each sample's byte pair, in
sample order. -/
def specPcmBytes (data : List ℚ) : List ℕ :=
  data.flatMap specSampleBytes

/-! ### Application state, from the `App` component in `src/unnamed/part_000` -/

/-- State of an `AudioContext` as far as the teardown guard reads it
(`audioContextRef.current.state !== 'closed'`). -/
inductive CtxState
  | running
  | closed
deriving DecidableEq

/-- One committed transcript pair (the `TranscriptionHistory` type of
part_000). -/
structure HistoryRecord where
  user : String
  translation : String
deriving DecidableEq

/-- The mutable state of the `App` component: the `useState` values and
the `useRef` cells.  Resource handles are reduced to what the code
observes of them: presence (`Bool` / `Option`), plus the `AudioContext`
state read by the teardown guard. -/
structure AppState where
  isRecording : Bool
  isConnecting : Bool
  isProcessingFile : Bool
  userTranscript : String
  malayalamTranslation : String
  history : List HistoryRecord
  error : Option String
  sessionPromise : Bool
  stream : Bool
  audioContext : Option CtxState
  scriptProcessor : Bool
  currentInput : String
  currentOutput : String
deriving DecidableEq

/-- The component's state on mount: every flag false, every handle at its
null sentinel, every string empty. -/
def initialState : AppState :=
  { isRecording := false
    isConnecting := false
    isProcessingFile := false
    userTranscript := ""
    malayalamTranslation := ""
    history := []
    error := none
    sessionPromise := false
    stream := false
    audioContext := none
    scriptProcessor := false
    currentInput := ""
    currentOutput := "" }

/-- JavaScript `String.prototype.trim` whitespace test, on the ASCII
whitespace characters (the full JS set also has Unicode spaces; the
transcripts and the claims' examples stay in this fragment). -/
def isJsSpace (c : Char) : Bool :=
  c == ' ' || c == '\t' || c == '\n' || c == '\r' || c == '\x0b' || c == '\x0c'

/-- JavaScript `String.prototype.trim`: drop leading and trailing
whitespace. -/
def jsTrim (s : String) : String :=
  ⟨((s.data.dropWhile isJsSpace).reverse.dropWhile isJsSpace).reverse⟩

/-- The `stopRecording` callback (part_000 lines 41–78), modeled as one
atomic step of the cooperative event loop.  Each teardown step repeats the
code's own guard: tracks are stopped and the stream ref nulled only if
present; the processor is disconnected and nulled only if both it and the
audio context are present; the context is closed and nulled only if
present and not already closed; the session close (whose exceptions the
code catches and only logs) nulls the promise ref only if present.
Finally a pending transcript is committed if either accumulator is a
nonempty string (raw truthiness in the code, not `.trim()`), and the
accumulators and their UI mirrors are cleared. -/
def stopRecording (s : AppState) : AppState :=
  let s1 := { s with isRecording := false, isConnecting := false }
  let s2 := if s1.stream then { s1 with stream := false } else s1
  let s3 := if s2.scriptProcessor ∧ s2.audioContext.isSome then
      { s2 with scriptProcessor := false } else s2
  let s4 := match s3.audioContext with
    | some CtxState.running => { s3 with audioContext := none }
    | _ => s3
  let s5 := if s4.sessionPromise then { s4 with sessionPromise := false } else s4
  let s6 := if s5.currentInput ≠ "" ∨ s5.currentOutput ≠ "" then
      { s5 with history := s5.history ++ [⟨s5.currentInput, s5.currentOutput⟩] }
    else s5
  { s6 with userTranscript := "", malayalamTranslation := "",
            currentInput := "", currentOutput := "" }

/-- One inbound `LiveServerMessage` as the `onmessage` handler reads it:
the optional incremental input/output transcription texts and the
turn-complete flag. -/
structure ServerMessage where
  inputTranscription : Option String
  outputTranscription : Option String
  turnComplete : Bool

/-- The `onmessage` callback (part_000 lines 119–143): append any partial
input/output text to the accumulator refs and mirror them to the UI; on
turn-complete, commit a history record when either accumulated string is
non-blank after `.trim()`, then clear both accumulators and both
mirrors. -/
def onmessage (m : ServerMessage) (s : AppState) : AppState :=
  let s1 := match m.inputTranscription with
    | some t => { s with currentInput := s.currentInput ++ t,
                         userTranscript := s.currentInput ++ t }
    | none => s
  let s2 := match m.outputTranscription with
    | some t => { s1 with currentOutput := s1.currentOutput ++ t,
                          malayalamTranslation := s1.currentOutput ++ t }
    | none => s1
  if m.turnComplete then
    let s3 := if jsTrim s2.currentInput ≠ "" ∨ jsTrim s2.currentOutput ≠ "" then
        { s2 with history := s2.history ++ [⟨s2.currentInput, s2.currentOutput⟩] }
      else s2
    { s3 with userTranscript := "", malayalamTranslation := "",
              currentInput := "", currentOutput := "" }
  else s2

/-- The error message set by the frame-send catch handler (part_000 line
111). -/
def sendErrorMessage : String := "Failed to send audio data. Please try again."

/-- The `onaudioprocess` handler closure.  `capturedIsRecording` is the
`isRecording` constant the closure sees: React state values are constants
of the render that created the enclosing `startRecording` callback, so
the later `setIsRecording(true)` does not change it. -/
structure Handler where
  capturedIsRecording : Bool
deriving DecidableEq

/-- Result of one settled frame-send attempt: the component state
afterwards, and the media blob passed to `session.sendRealtimeInput`
(`none` when the send was never invoked). -/
structure FrameStepResult where
  state : AppState
  sent : Option GenaiBlob
deriving DecidableEq

/-- Whether `onaudioprocess` (part_000 lines 101–115) attaches a
send continuation for a delivered frame: the live
`sessionPromiseRef.current` must be non-null at delivery time. -/
def frameDeliveryAttaches (s : AppState) : Bool :=
  s.sessionPromise

/-- The continuation chain `sessionPromiseRef.current.then(...).catch(...)`
attached by `onaudioprocess` for one delivered frame, run when the session
promise settles in state `s`.  `rejected` — the promise rejected;
`sendThrows` — `sendRealtimeInput` raised.  The then-branch invokes the
send only if the closure's captured `isRecording` is true; any failure
lands in the catch handler, which sets the error message and runs
`stopRecording`. -/
def onFrameSettled (h : Handler) (frame : List ℚ) (rejected : Bool)
    (sendThrows : Bool) (s : AppState) : FrameStepResult :=
  if rejected then
    ⟨stopRecording { s with error := some sendErrorMessage }, none⟩
  else if h.capturedIsRecording then
    if sendThrows then
      ⟨stopRecording { s with error := some sendErrorMessage }, some (createBlob frame)⟩
    else
      ⟨s, some (createBlob frame)⟩
  else
    ⟨s, none⟩

/-- State after `startRecording` has resolved `getUserMedia` and issued
the connect call (part_000 lines 80–96): connecting cleared, recording
set, stream and session promise held; the error and the UI mirrors were
cleared at entry.  The accumulator refs are untouched. -/
def startRecordingResolved (s : AppState) : AppState :=
  { s with isConnecting := false, isRecording := true, error := none,
           userTranscript := "", malayalamTranslation := "",
           stream := true, sessionPromise := true }

/-- The `onopen` callback (part_000 lines 98–117): create the audio
context and the script processor and install the audio handler. -/
def onopen (s : AppState) : AppState :=
  { s with audioContext := some CtxState.running, scriptProcessor := true }

/-- The `handleToggleRecording` handler (part_000 lines 166–172): stop
when recording, otherwise start.  In the start branch the installed
`onaudioprocess` closure captures the `isRecording` constant of the
current render — the value tested by the toggle itself, hence `false`. -/
def handleToggleRecording (s : AppState) : AppState × Option Handler :=
  if s.isRecording then (stopRecording s, none)
  else (onopen (startRecordingResolved s), some ⟨s.isRecording⟩)

/-- The state reached by toggling from the mounted component: microphone
granted, session connected and opened. -/
def stateAfterIdleToggle : AppState :=
  (handleToggleRecording initialState).1

/-- The handler installed by toggling from the mounted component. -/
def handlerAfterIdleToggle : Option Handler :=
  (handleToggleRecording initialState).2

/-- A concrete 1-sample capture frame used as a witness input. -/
def halfFrame : List ℚ := [1 / 2]

/-- The structured one-shot response body after JSON parsing
(`result.transcription`, `result.translation`). -/
structure FileResponse where
  transcription : String
  translation : String
deriving DecidableEq

/-- JavaScript `err.message || 'Unknown error'`. -/
def fileErrorText (m : String) : String :=
  if m = "" then "Unknown error" else m

/-- The `handleFileUpload` path (part_000 lines 185–254) from the moment
the remote call settles, as one event-loop step.  On entry the handler
cleared the error and both UI mirrors and set the busy flag; `resp` is
the parsed response (`Except.error m` models a rejected request or a
`JSON.parse` failure with message `m`).  A response with at least one
nonempty field is committed to history and mirrored; an all-empty
response raises `Received empty transcription/translation.`, which the
catch block surfaces; the `finally` block clears the busy flag. -/
def handleFileUploadResult (resp : Except String FileResponse) (s : AppState) : AppState :=
  let s0 := { s with isProcessingFile := true, error := none,
                     userTranscript := "", malayalamTranslation := "" }
  match resp with
  | .ok r =>
    if r.transcription ≠ "" ∨ r.translation ≠ "" then
      { s0 with history := s0.history ++ [⟨r.transcription, r.translation⟩],
                userTranscript := r.transcription,
                malayalamTranslation := r.translation,
                isProcessingFile := false }
    else
      { s0 with error := some ("Failed to process audio file: " ++
                  fileErrorText "Received empty transcription/translation."),
                isProcessingFile := false }
  | .error m =>
    { s0 with error := some ("Failed to process audio file: " ++ fileErrorText m),
              isProcessingFile := false }

/-- All four resource handles at their empty sentinel. -/
def handlesCleared (s : AppState) : Prop :=
  s.stream = false ∧ s.scriptProcessor = false ∧
  s.audioContext = none ∧ s.sessionPromise = false

/-- Handle well-formedness maintained by the component: the context ref
never outlives a close (a closed context is nulled in the same step), and
a live script processor implies a live context (they are created together
in `onopen` and the processor is released first in `stopRecording`). -/
def WFHandles (s : AppState) : Prop :=
  s.audioContext ≠ some CtxState.closed ∧
  (s.scriptProcessor = true → s.audioContext.isSome = true)

/-- A state whose input accumulator holds a single space: a pending
transcript that is nonempty but blank (whitespace-only). -/
def whitespaceStopState : AppState :=
  { initialState with currentInput := " " }

/-! ### Bit-stream lemmas -/

theorem natBits_length (w : ℕ) : ∀ n, (natBits w n).length = w := by
  induction w with
  | zero => intro n; rfl
  | succ k ih => intro n; simp [natBits, ih]

theorem natBits_split (a b n : ℕ) :
    natBits (a + b) n = natBits a (n / 2 ^ b) ++ natBits b (n % 2 ^ b) := by
  induction b generalizing n with
  | zero => simp [natBits]
  | succ k ih =>
    have h1 : a + (k + 1) = (a + k) + 1 := by omega
    have f1 : n / 2 / 2 ^ k = n / 2 ^ (k + 1) := by
      rw [Nat.div_div_eq_div_mul, pow_succ, mul_comm]
    have f2 : n / 2 % 2 ^ k = n % 2 ^ (k + 1) / 2 := by
      rw [pow_succ, mul_comm]
      exact (Nat.mod_mul_right_div_self n 2 (2 ^ k)).symm
    have f3 : n % 2 ^ (k + 1) % 2 = n % 2 := by
      refine Nat.mod_mod_of_dvd n ⟨2 ^ k, ?_⟩
      rw [pow_succ]; ring
    rw [h1]
    simp only [natBits]
    rw [ih (n / 2), f1, f2, f3, List.append_assoc]

theorem natBits_splitAt (w a b p n : ℕ) (hw : w = a + b) (hp : 2 ^ b = p) :
    natBits w n = natBits a (n / p) ++ natBits b (n % p) := by
  subst hw; subst hp; exact natBits_split a b n

theorem bitsToNat_go (l : List Bool) : ∀ z : ℕ,
    l.foldl (fun a b => 2 * a + cond b 1 0) z =
      z * 2 ^ l.length + l.foldl (fun a b => 2 * a + cond b 1 0) 0 := by
  induction l with
  | nil => intro z; simp
  | cons b t ih =>
    intro z
    simp only [List.foldl_cons, List.length_cons]
    rw [ih (2 * z + cond b 1 0), ih (2 * 0 + cond b 1 0)]
    ring

theorem bitsToNat_append (l1 l2 : List Bool) :
    bitsToNat (l1 ++ l2) = bitsToNat l1 * 2 ^ l2.length + bitsToNat l2 := by
  unfold bitsToNat
  rw [List.foldl_append]
  exact bitsToNat_go l2 _

theorem bitsToNat_replicate_false (k : ℕ) :
    bitsToNat (List.replicate k false) = 0 := by
  induction k with
  | zero => rfl
  | succ n ih =>
    simp only [bitsToNat, List.replicate_succ, List.foldl_cons] at *
    simpa using ih

theorem bitsToNat_natBits (w : ℕ) : ∀ n, bitsToNat (natBits w n) = n % 2 ^ w := by
  induction w with
  | zero => intro n; simp [natBits, bitsToNat, Nat.mod_one]
  | succ k ih =>
    intro n
    simp only [natBits]
    rw [bitsToNat_append, ih]
    have hb : bitsToNat [decide (n % 2 = 1)] = n % 2 := by
      rcases Nat.mod_two_eq_zero_or_one n with h | h <;> simp [bitsToNat, h]
    have h1 : n % (2 * 2 ^ k) / 2 = n / 2 % 2 ^ k :=
      Nat.mod_mul_right_div_self n 2 (2 ^ k)
    have h2 : n % (2 * 2 ^ k) % 2 = n % 2 := Nat.mod_mod_of_dvd n ⟨2 ^ k, rfl⟩
    have key : n % (2 * 2 ^ k) = 2 * (n / 2 % 2 ^ k) + n % 2 := by
      rw [← h1, ← h2]
      exact (Nat.div_add_mod (n % (2 * 2 ^ k)) 2).symm
    have h4 : 2 ^ (k + 1) = 2 * 2 ^ k := by rw [pow_succ]; ring
    rw [hb, h4, key]
    simp [List.length_cons]
    ring

theorem chunk6_append_of_length (l r : List Bool) (h : l.length = 6) :
    chunk6 (l ++ r) = l :: chunk6 r := by
  cases l with
  | nil => simp at h
  | cons a t =>
    rw [List.cons_append, chunk6, ← List.cons_append]
    rw [show (6 : ℕ) = (a :: t).length from h.symm]
    rw [List.take_left, List.drop_left]

theorem chunk6_small (l : List Bool) (h0 : l.length ≠ 0) (h6 : l.length ≤ 6) :
    chunk6 l = [l] := by
  cases l with
  | nil => simp at h0
  | cons a t =>
    rw [chunk6]
    rw [List.take_of_length_le h6, List.drop_eq_nil_of_le h6]
    simp [chunk6]

theorem sextetVal_natBits6 (n : ℕ) (h : n < 64) : sextetVal (natBits 6 n) = n := by
  unfold sextetVal
  rw [natBits_length]
  simp only [Nat.sub_self, List.replicate_zero, List.append_nil]
  rw [bitsToNat_natBits]
  omega

theorem sextetVal_natBits2 (n : ℕ) : sextetVal (natBits 2 n) = n % 4 * 16 := by
  unfold sextetVal
  rw [natBits_length, bitsToNat_append, bitsToNat_replicate_false,
    bitsToNat_natBits, List.length_replicate]
  norm_num

theorem sextetVal_natBits4 (n : ℕ) : sextetVal (natBits 4 n) = n % 16 * 4 := by
  unfold sextetVal
  rw [natBits_length, bitsToNat_append, bitsToNat_replicate_false,
    bitsToNat_natBits, List.length_replicate]
  norm_num

theorem natBits8_three (b0 b1 b2 : ℕ) (h1 : b1 < 256) (h2 : b2 < 256) :
    natBits 8 b0 ++ natBits 8 b1 ++ natBits 8 b2 =
      natBits 24 (b0 * 65536 + b1 * 256 + b2) := by
  rw [natBits_splitAt 24 8 16 65536 _ rfl (by norm_num)]
  rw [natBits_splitAt 16 8 8 256 _ rfl (by norm_num)]
  have e1 : (b0 * 65536 + b1 * 256 + b2) / 65536 = b0 := by omega
  have e2 : (b0 * 65536 + b1 * 256 + b2) % 65536 = b1 * 256 + b2 := by omega
  have e3 : (b1 * 256 + b2) / 256 = b1 := by omega
  have e4 : (b1 * 256 + b2) % 256 = b2 := by omega
  rw [e1, e2, e3, e4, List.append_assoc]

theorem natBits24_sextets (v : ℕ) :
    natBits 24 v = natBits 6 (v / 262144) ++ (natBits 6 (v / 4096 % 64) ++
      (natBits 6 (v / 64 % 64) ++ natBits 6 (v % 64))) := by
  rw [natBits_splitAt 24 6 18 262144 v rfl (by norm_num)]
  rw [natBits_splitAt 18 6 12 4096 _ rfl (by norm_num)]
  rw [natBits_splitAt 12 6 6 64 _ rfl (by norm_num)]
  have e2 : v % 262144 / 4096 = v / 4096 % 64 := by omega
  have e3 : v % 262144 % 4096 / 64 = v / 64 % 64 := by omega
  have e4 : v % 262144 % 4096 % 64 = v % 64 := by omega
  rw [e2, e3, e4]

theorem rfcChars_nil : rfcChars [] = [] := by
  simp [rfcChars, chunk6]

theorem rfcChars_cons3 (b0 b1 b2 : ℕ) (rest : List ℕ)
    (h0 : b0 < 256) (h1 : b1 < 256) (h2 : b2 < 256) :
    rfcChars (b0 :: b1 :: b2 :: rest) =
      b64Char ((b0 * 65536 + b1 * 256 + b2) / 262144) ::
      b64Char ((b0 * 65536 + b1 * 256 + b2) / 4096 % 64) ::
      b64Char ((b0 * 65536 + b1 * 256 + b2) / 64 % 64) ::
      b64Char ((b0 * 65536 + b1 * 256 + b2) % 64) :: rfcChars rest := by
  unfold rfcChars
  have hflat : (b0 :: b1 :: b2 :: rest).flatMap (natBits 8) =
      natBits 24 (b0 * 65536 + b1 * 256 + b2) ++ rest.flatMap (natBits 8) := by
    simp only [List.flatMap_cons]
    rw [← List.append_assoc, ← List.append_assoc, natBits8_three b0 b1 b2 h1 h2]
  rw [hflat, natBits24_sextets]
  rw [List.append_assoc, List.append_assoc, List.append_assoc]
  rw [chunk6_append_of_length _ _ (natBits_length 6 _)]
  rw [chunk6_append_of_length _ _ (natBits_length 6 _)]
  rw [chunk6_append_of_length _ _ (natBits_length 6 _)]
  rw [chunk6_append_of_length _ _ (natBits_length 6 _)]
  simp only [List.map_cons]
  rw [sextetVal_natBits6 _ (by omega), sextetVal_natBits6 _ (by omega),
    sextetVal_natBits6 _ (by omega), sextetVal_natBits6 _ (by omega)]

theorem rfcChars_one (b0 : ℕ) (h0 : b0 < 256) :
    rfcChars [b0] = [b64Char (b0 / 4), b64Char (b0 % 4 * 16)] := by
  unfold rfcChars
  have hflat : ([b0] : List ℕ).flatMap (natBits 8) = natBits 8 b0 := by
    simp
  rw [hflat, natBits_splitAt 8 6 2 4 b0 rfl (by norm_num)]
  rw [chunk6_append_of_length _ _ (natBits_length 6 _)]
  rw [chunk6_small _ (by rw [natBits_length]; omega) (by rw [natBits_length]; omega)]
  simp only [List.map_cons, List.map_nil]
  rw [sextetVal_natBits6 _ (by omega), sextetVal_natBits2]
  have : b0 % 4 % 4 = b0 % 4 := by omega
  rw [this]

theorem rfcChars_two (b0 b1 : ℕ) (h0 : b0 < 256) (h1 : b1 < 256) :
    rfcChars [b0, b1] = [b64Char ((b0 * 256 + b1) / 1024),
      b64Char ((b0 * 256 + b1) / 16 % 64), b64Char ((b0 * 256 + b1) % 16 * 4)] := by
  unfold rfcChars
  have hflat : ([b0, b1] : List ℕ).flatMap (natBits 8) =
      natBits 16 (b0 * 256 + b1) := by
    simp only [List.flatMap_cons, List.flatMap_nil, List.append_nil]
    rw [natBits_splitAt 16 8 8 256 _ rfl (by norm_num)]
    have e1 : (b0 * 256 + b1) / 256 = b0 := by omega
    have e2 : (b0 * 256 + b1) % 256 = b1 := by omega
    rw [e1, e2]
  rw [hflat, natBits_splitAt 16 6 10 1024 _ rfl (by norm_num)]
  rw [natBits_splitAt 10 6 4 16 _ rfl (by norm_num)]
  rw [chunk6_append_of_length _ _ (natBits_length 6 _)]
  rw [chunk6_append_of_length _ _ (natBits_length 6 _)]
  rw [chunk6_small _ (by rw [natBits_length]; omega) (by rw [natBits_length]; omega)]
  simp only [List.map_cons, List.map_nil]
  rw [sextetVal_natBits6 _ (by omega), sextetVal_natBits6 _ (by omega), sextetVal_natBits4]
  have e3 : (b0 * 256 + b1) % 1024 / 16 = (b0 * 256 + b1) / 16 % 64 := by omega
  have e4 : (b0 * 256 + b1) % 1024 % 16 % 16 = (b0 * 256 + b1) % 16 := by omega
  rw [e3, e4]

theorem b64CharVal_b64Char : ∀ s, s < 64 → b64CharVal (b64Char s) = some s := by
  decide

theorem b64Char_ne_pad : ∀ s, s < 64 → b64Char s ≠ '=' := by
  decide

theorem btoaChunks_eq_rfc : ∀ bs : List ℕ, (∀ b ∈ bs, b < 256) →
    btoaChunks bs =
      rfcChars bs ++ List.replicate ((4 - (rfcChars bs).length % 4) % 4) '='
  | [], _ => by simp [btoaChunks, rfcChars_nil]
  | [b0], h => by
    have h0 : b0 < 256 := h b0 (by simp)
    simp only [btoaChunks]
    rw [rfcChars_one b0 h0]
    have e1 : b0 * 65536 / 262144 = b0 / 4 := by omega
    have e2 : b0 * 65536 / 4096 % 64 = b0 % 4 * 16 := by omega
    rw [e1, e2]
    rfl
  | [b0, b1], h => by
    have h0 : b0 < 256 := h b0 (by simp)
    have h1 : b1 < 256 := h b1 (by simp)
    simp only [btoaChunks]
    rw [rfcChars_two b0 b1 h0 h1]
    have e1 : (b0 * 65536 + b1 * 256) / 262144 = (b0 * 256 + b1) / 1024 := by omega
    have e2 : (b0 * 65536 + b1 * 256) / 4096 % 64 = (b0 * 256 + b1) / 16 % 64 := by
      omega
    have e3 : (b0 * 65536 + b1 * 256) / 64 % 64 = (b0 * 256 + b1) % 16 * 4 := by
      omega
    rw [e1, e2, e3]
    rfl
  | b0 :: b1 :: b2 :: rest, h => by
    have h0 : b0 < 256 := h b0 (by simp)
    have h1 : b1 < 256 := h b1 (by simp)
    have h2 : b2 < 256 := h b2 (by simp)
    have hrest : ∀ b ∈ rest, b < 256 := fun b hb => h b (by simp [hb])
    simp only [btoaChunks]
    rw [btoaChunks_eq_rfc rest hrest]
    rw [rfcChars_cons3 b0 b1 b2 rest h0 h1 h2]
    simp only [List.length_cons, List.cons_append]
    have : (4 - ((rfcChars rest).length + 1 + 1 + 1 + 1) % 4) % 4 =
        (4 - (rfcChars rest).length % 4) % 4 := by omega
    rw [this]

theorem b64_roundtrip : ∀ bs : List ℕ, (∀ b ∈ bs, b < 256) →
    b64decodeChunks (btoaChunks bs) = some bs
  | [], _ => by simp [btoaChunks, b64decodeChunks]
  | [b0], h => by
    have h0 : b0 < 256 := h b0 (by simp)
    simp only [btoaChunks, b64decodeChunks]
    rw [if_pos (by simp)]
    rw [b64CharVal_b64Char _ (by omega), b64CharVal_b64Char _ (by omega)]
    have : b0 * 65536 / 262144 * 4 + b0 * 65536 / 4096 % 64 / 16 = b0 := by omega
    simp [this]
  | [b0, b1], h => by
    have h0 : b0 < 256 := h b0 (by simp)
    have h1 : b1 < 256 := h b1 (by simp)
    simp only [btoaChunks, b64decodeChunks]
    rw [if_neg fun hc => b64Char_ne_pad _ (by omega) hc.1]
    rw [if_pos (by simp)]
    rw [b64CharVal_b64Char _ (by omega), b64CharVal_b64Char _ (by omega),
      b64CharVal_b64Char _ (by omega)]
    have e1 : (b0 * 65536 + b1 * 256) / 262144 * 4 +
        (b0 * 65536 + b1 * 256) / 4096 % 64 / 16 = b0 := by omega
    have e2 : (b0 * 65536 + b1 * 256) / 4096 % 64 % 16 * 16 +
        (b0 * 65536 + b1 * 256) / 64 % 64 / 4 = b1 := by omega
    simp [e1, e2]
  | b0 :: b1 :: b2 :: rest, h => by
    have h0 : b0 < 256 := h b0 (by simp)
    have h1 : b1 < 256 := h b1 (by simp)
    have h2 : b2 < 256 := h b2 (by simp)
    have hrest : ∀ b ∈ rest, b < 256 := fun b hb => h b (by simp [hb])
    simp only [btoaChunks, b64decodeChunks]
    rw [if_neg fun hc => b64Char_ne_pad _ (by omega) hc.1]
    rw [if_neg fun hc => b64Char_ne_pad _ (by omega) hc.1]
    rw [b64CharVal_b64Char _ (by omega), b64CharVal_b64Char _ (by omega),
      b64CharVal_b64Char _ (by omega), b64CharVal_b64Char _ (by omega)]
    rw [b64_roundtrip rest hrest]
    have e1 : (b0 * 65536 + b1 * 256 + b2) / 262144 * 4 +
        (b0 * 65536 + b1 * 256 + b2) / 4096 % 64 / 16 = b0 := by omega
    have e2 : (b0 * 65536 + b1 * 256 + b2) / 4096 % 64 % 16 * 16 +
        (b0 * 65536 + b1 * 256 + b2) / 64 % 64 / 4 = b1 := by omega
    have e3 : (b0 * 65536 + b1 * 256 + b2) / 64 % 64 % 4 * 64 +
        (b0 * 65536 + b1 * 256 + b2) % 64 = b2 := by omega
    simp [e1, e2, e3]

/-! ### PCM byte-stream lemmas -/

theorem toInt16Bits_lt (q : ℚ) : toInt16Bits q < 65536 := by
  unfold toInt16Bits
  have h1 : 0 ≤ jsTrunc q % 65536 := Int.emod_nonneg _ (by norm_num)
  have h2 : jsTrunc q % 65536 < 65536 := Int.emod_lt_of_pos _ (by norm_num)
  omega

theorem pcmBytes_lt256 (data : List ℚ) : ∀ b ∈ pcmBytes data, b < 256 := by
  intro b hb
  unfold pcmBytes at hb
  simp only [List.mem_flatMap, int16ElemBytes, List.mem_cons,
    List.not_mem_nil, or_false] at hb
  rcases hb with ⟨s, _, hb⟩
  have := toInt16Bits_lt (s * 32768)
  rcases hb with h | h <;> omega

theorem pcmBytes_length (data : List ℚ) :
    (pcmBytes data).length = 2 * data.length := by
  induction data with
  | nil => rfl
  | cons s rest ih =>
    simp only [pcmBytes, List.flatMap_cons, int16ElemBytes] at *
    simp [ih]
    omega

theorem jsTrunc_eq_truncTowardZero (q : ℚ) : jsTrunc q = truncTowardZero q := by
  unfold jsTrunc truncTowardZero
  rcases lt_trichotomy q 0 with hq | hq | hq
  · rw [if_neg (not_le.mpr hq), abs_of_neg hq]
    have hnum : q.num < 0 := Rat.num_neg.mpr hq
    rw [Int.sign_eq_neg_one_of_neg hnum, Int.floor_neg]
    ring
  · subst hq
    norm_num
  · rw [if_pos hq.le, abs_of_pos hq]
    have hnum : 0 < q.num := Rat.num_pos.mpr hq
    rw [Int.sign_eq_one_of_pos hnum]
    ring

theorem int16Bits_eq_spec (q : ℚ) :
    toInt16Bits q = ((wrapToInt16 (truncTowardZero q)) % 65536).toNat := by
  unfold toInt16Bits wrapToInt16
  rw [jsTrunc_eq_truncTowardZero]
  congr 1
  omega

theorem sampleBytes_eq_spec (s : ℚ) :
    int16ElemBytes (s * 32768) = specSampleBytes s := by
  unfold int16ElemBytes specSampleBytes
  rw [int16Bits_eq_spec (s * 32768)]

/-! ### Claim theorems for the PCM encoder -/

/-- C4: the PCM encoder maps each float sample `s` to the 16-bit value
obtained by multiplying by 32768, truncating toward zero, and wrapping
into a signed 16-bit container with no saturation, packed as little-endian
bytes in sample order: the byte stream written by the code
(`int16[i] = data[i] * 32768` under JavaScript `Int16Array` semantics)
equals the stream described by the claim's words. -/
theorem pcm_conversion_matches_spec (data : List ℚ) :
    pcmBytes data = specPcmBytes data := by
  induction data with
  | nil => rfl
  | cons s rest ih =>
    simp only [pcmBytes, specPcmBytes, List.flatMap_cons] at *
    rw [ih, sampleBytes_eq_spec]

/-- C5: for every sample sequence of length N the payload of `createBlob`
base64-decodes to exactly the 2N PCM bytes; the empty frame yields the
empty payload with the fixed MIME descriptor and no error; `createBlob`
is a total pure function, so determinism and freedom from side effects
are inherent in the embedding. -/
theorem createBlob_payload_roundtrip (data : List ℚ) :
    b64decode (createBlob data).data = some (pcmBytes data) ∧
    (pcmBytes data).length = 2 * data.length ∧
    createBlob [] = ⟨"", "audio/pcm;rate=16000"⟩ := by
  refine ⟨?_, pcmBytes_length data, by decide⟩
  show b64decodeChunks (btoaChunks (pcmBytes data)) = some (pcmBytes data)
  exact b64_roundtrip _ (pcmBytes_lt256 data)

/-- C10: the hand-rolled `encode` agrees with RFC 4648 base64: on every
byte sequence (values below 256) its output is the canonical base64 text
of those bytes. -/
theorem encode_eq_rfc4648 (bs : List ℕ) (h : ∀ b ∈ bs, b < 256) :
    encode bs = base64RFC bs := by
  unfold encode base64RFC
  exact congrArg String.mk (btoaChunks_eq_rfc bs h)

/-- Witness for C10 at the concrete byte sequence `[77, 97, 110, 255, 0]`,
whose canonical base64 text is `TWFu/wA=`. -/
theorem encode_eq_rfc4648_witness :
    (∀ b ∈ [77, 97, 110, 255, 0], b < 256) ∧
    encode [77, 97, 110, 255, 0] = base64RFC [77, 97, 110, 255, 0] ∧
    encode [77, 97, 110, 255, 0] = "TWFu/wA=" :=
  ⟨by decide, encode_eq_rfc4648 [77, 97, 110, 255, 0] (by decide), by decide⟩

/-! ### Teardown lemmas and claim theorems for the recording lifecycle -/

theorem stopRecording_error (s : AppState) : (stopRecording s).error = s.error := by
  obtain ⟨rec, con, pf, ut, mt, hist, err, sp, st, ac, spr, ci, co⟩ := s
  simp only [stopRecording]
  rcases ac with _ | c
  · split_ifs <;> rfl
  · rcases c <;> split_ifs <;> rfl

theorem stopRecording_handles (s : AppState) (h : WFHandles s) :
    handlesCleared (stopRecording s) := by
  obtain ⟨hac, hsp⟩ := h
  obtain ⟨rec, con, pf, ut, mt, hist, err, sp, st, ac, spr, ci, co⟩ := s
  simp only [WFHandles] at hac hsp
  rcases ac with _ | c
  · have hspr : spr = false := by
      cases spr
      · rfl
      · simpa using hsp rfl
    subst hspr
    simp [stopRecording, handlesCleared]
    split_ifs <;> simp_all
  · rcases c
    · simp [stopRecording, handlesCleared]
      split_ifs <;> simp_all
    · simp at hac

theorem wf_of_handlesCleared (s : AppState) (h : handlesCleared s) : WFHandles s := by
  obtain ⟨_, hproc, hac, _⟩ := h
  exact ⟨by rw [hac]; simp, fun hp => absurd hp (by rw [hproc]; simp)⟩

/-- C6: `stopRecording` is idempotent.  From any state satisfying the
handle invariant the component maintains (and in particular from the
mounted state, where no start ever ran), one stop leaves all four
resource handles — stream, script-processor node, audio context, session
promise — at their null sentinels, a second stop keeps them there, and
neither call touches the error state (the modeled teardown is total:
every release step is guarded by the code's own presence check, and the
session-close try/catch only logs). -/
theorem stop_idempotent_handles_cleared (s : AppState) (h : WFHandles s) :
    handlesCleared (stopRecording s) ∧
    handlesCleared (stopRecording (stopRecording s)) ∧
    (stopRecording s).error = s.error ∧
    (stopRecording (stopRecording s)).error = s.error := by
  have h1 := stopRecording_handles s h
  have h2 := stopRecording_handles _ (wf_of_handlesCleared _ h1)
  refine ⟨h1, h2, stopRecording_error s, ?_⟩
  rw [stopRecording_error, stopRecording_error]

theorem initialState_wf : WFHandles initialState :=
  ⟨by simp [initialState], by intro h; simp [initialState] at h⟩

/-- Witness for C6 at the mounted state (stop with no prior start, then
stop again). -/
theorem stop_idempotent_handles_cleared_witness :
    WFHandles initialState ∧
    handlesCleared (stopRecording (stopRecording initialState)) ∧
    (stopRecording initialState).error = none :=
  ⟨initialState_wf,
   (stop_idempotent_handles_cleared initialState initialState_wf).2.1,
   (stop_idempotent_handles_cleared initialState initialState_wf).2.2.1⟩

/-- C3 counterexample: with a whitespace-only pending input transcript
(a single space) both accumulators are blank — `trim` of each is empty,
so the claim's condition "at least one accumulator contains
non-whitespace" is false — yet `stopRecording` does append a history
record, because the code guards the final commit with raw string
truthiness (`if (currentInputTranscriptionRef.current || ...)`), not with
`.trim()`. -/
theorem stop_commits_whitespace_only_transcript :
    jsTrim whitespaceStopState.currentInput = "" ∧
    jsTrim whitespaceStopState.currentOutput = "" ∧
    (stopRecording whitespaceStopState).history =
      whitespaceStopState.history ++ [⟨" ", ""⟩] := by
  decide

/-- C3 as amended: `stopRecording` appends exactly one final record
holding the two accumulator contents if and only if at least one
accumulator is a nonempty string (whitespace-only contents count), and in
every case clears both accumulators and both UI mirrors. -/
theorem stop_commit_iff_accumulator_nonempty (s : AppState) :
    ((s.currentInput ≠ "" ∨ s.currentOutput ≠ "") →
      (stopRecording s).history = s.history ++ [⟨s.currentInput, s.currentOutput⟩]) ∧
    ((s.currentInput = "" ∧ s.currentOutput = "") →
      (stopRecording s).history = s.history) ∧
    (stopRecording s).currentInput = "" ∧
    (stopRecording s).currentOutput = "" ∧
    (stopRecording s).userTranscript = "" ∧
    (stopRecording s).malayalamTranslation = "" := by
  obtain ⟨rec, con, pf, ut, mt, hist, err, sp, st, ac, spr, ci, co⟩ := s
  rcases ac with _ | c
  · simp [stopRecording]
    split_ifs <;> simp_all <;> tauto
  · rcases c
    · simp [stopRecording]
      split_ifs <;> simp_all <;> tauto
    · simp [stopRecording]
      split_ifs <;> simp_all <;> tauto

/-- Witness for C3 (amended) at the manual-stop salvage example: a
pending input `partial text` and no turn-complete, stopped by hand. -/
theorem stop_commit_iff_accumulator_nonempty_witness :
    (stopRecording { initialState with currentInput := "partial text" }).history =
      [⟨"partial text", ""⟩] ∧
    (stopRecording { initialState with currentInput := "partial text" }).currentInput = "" :=
  ⟨by have h :=
      (stop_commit_iff_accumulator_nonempty
        { initialState with currentInput := "partial text" }).1 (Or.inl (by decide))
      simpa using h,
   (stop_commit_iff_accumulator_nonempty
      { initialState with currentInput := "partial text" }).2.2.1⟩

/-- C2: on a turn-complete message the `onmessage` handler commits a
history record holding the two accumulator contents (after the same
message's appends) precisely when at least one of them is non-blank under
`.trim()`, and in every case resets both accumulators and both UI
mirrors. -/
theorem turn_complete_commit_rule (m : ServerMessage) (s : AppState)
    (h : m.turnComplete = true) :
    ((jsTrim (s.currentInput ++ m.inputTranscription.getD "") ≠ "" ∨
      jsTrim (s.currentOutput ++ m.outputTranscription.getD "") ≠ "") →
      (onmessage m s).history = s.history ++
        [⟨s.currentInput ++ m.inputTranscription.getD "",
          s.currentOutput ++ m.outputTranscription.getD ""⟩]) ∧
    ((jsTrim (s.currentInput ++ m.inputTranscription.getD "") = "" ∧
      jsTrim (s.currentOutput ++ m.outputTranscription.getD "") = "") →
      (onmessage m s).history = s.history) ∧
    (onmessage m s).currentInput = "" ∧
    (onmessage m s).currentOutput = "" ∧
    (onmessage m s).userTranscript = "" ∧
    (onmessage m s).malayalamTranslation = "" := by
  obtain ⟨it, ot, tc⟩ := m
  simp only at h
  subst h
  rcases it with _ | t <;> rcases ot with _ | t' <;>
    (simp [onmessage, Option.getD]; split_ifs <;> (simp_all; try tauto))

/-- Witness for C2 at the spec's example: appended input `hello`, empty
output, then turn-complete commits `{user := hello, translation := empty}`
and clears the accumulators. -/
theorem turn_complete_commit_rule_witness :
    (onmessage ⟨some "hello", none, true⟩ initialState).history = [⟨"hello", ""⟩] ∧
    (onmessage ⟨some "hello", none, true⟩ initialState).currentInput = "" :=
  ⟨by have h :=
      (turn_complete_commit_rule ⟨some "hello", none, true⟩ initialState rfl).1
        (Or.inl (by decide))
      simpa using h,
   (turn_complete_commit_rule ⟨some "hello", none, true⟩ initialState rfl).2.2.1⟩

/-! ### Claim theorems for the send path and the file path -/

/-- C1 fails on the code: after toggling from the mounted state the
session is connected and the live `isRecording` flag is true, so the
claim requires every delivered frame to be sent — but the installed
handler's closure captured the `isRecording` constant of the render that
created it, which was still `false` (the toggle starts recording only
when not recording), so the send continuation ships nothing and leaves
the state untouched: the frame is silently dropped, never handed to
`session.sendRealtimeInput`. -/
theorem frames_dropped_by_stale_closure :
    stateAfterIdleToggle.isRecording = true ∧
    frameDeliveryAttaches stateAfterIdleToggle = true ∧
    handlerAfterIdleToggle = some ⟨false⟩ ∧
    (onFrameSettled ⟨false⟩ halfFrame false false stateAfterIdleToggle).sent = none ∧
    (onFrameSettled ⟨false⟩ halfFrame false false stateAfterIdleToggle).state =
      stateAfterIdleToggle := by
  decide

/-- C8: whenever the send continuation actually attempts a transmission
(captured flag true) and `sendRealtimeInput` fails, the catch handler
sets the user-visible send-error message and runs the full
`stopRecording` teardown; a rejected session promise takes the same
path.  No failure is swallowed. -/
theorem failed_send_sets_error_and_stops (hh : Handler)
    (hcap : hh.capturedIsRecording = true) (frame : List ℚ) (s : AppState) :
    (onFrameSettled hh frame false true s).state =
      stopRecording { s with error := some sendErrorMessage } ∧
    (onFrameSettled hh frame false true s).state.error = some sendErrorMessage ∧
    (∀ b : Bool, (onFrameSettled hh frame true b s).state =
      stopRecording { s with error := some sendErrorMessage }) := by
  obtain ⟨cap⟩ := hh
  simp only at hcap
  subst hcap
  refine ⟨rfl, ?_, fun b => rfl⟩
  have h : (onFrameSettled ⟨true⟩ frame false true s).state =
      stopRecording { s with error := some sendErrorMessage } := rfl
  rw [h, stopRecording_error]

/-- Witness for C8: a throwing send on a live handler from the mounted
state surfaces the send-error message. -/
theorem failed_send_sets_error_and_stops_witness :
    (onFrameSettled ⟨true⟩ halfFrame false true initialState).state.error =
      some sendErrorMessage :=
  (failed_send_sets_error_and_stops ⟨true⟩ rfl halfFrame initialState).2.1

/-- C9: a send continuation installed by a toggle-start (whose closure
captured `isRecording = false`) that resolves against any later state —
in particular one in which `stopRecording` has already nulled the session
handle — changes nothing: it mutates no accumulator, UI or history state,
sends nothing, and (being a total function whose only failure source,
the guarded send, is never reached) raises nothing. -/
theorem late_send_after_stop_is_noop (s0 : AppState) (h0 : s0.isRecording = false)
    (hh : Handler) (hinst : (handleToggleRecording s0).2 = some hh)
    (sendThrows : Bool) (frame : List ℚ) (s : AppState) :
    onFrameSettled hh frame false sendThrows s = ⟨s, none⟩ := by
  obtain ⟨cap⟩ := hh
  have hcap : cap = false := by
    unfold handleToggleRecording at hinst
    rw [if_neg (by simp [h0])] at hinst
    simp at hinst
    rw [← hinst, h0]
  subst hcap
  rfl

/-- Witness for C9: the toggle-start handler's continuation, resolving
after the state has been torn down by `stopRecording`, is a no-op even
with a throwing send. -/
theorem late_send_after_stop_is_noop_witness :
    onFrameSettled ⟨false⟩ halfFrame false true (stopRecording stateAfterIdleToggle) =
      ⟨stopRecording stateAfterIdleToggle, none⟩ :=
  late_send_after_stop_is_noop initialState rfl ⟨false⟩ rfl true halfFrame
    (stopRecording stateAfterIdleToggle)

/-- C7: the one-shot file path appends exactly one history record and
mirrors both fields into the current UI state whenever the parsed
response has a non-blank field (the code's guard — raw nonemptiness — is
implied by non-blankness); an all-empty response or an unparseable one
sets the user-facing failure message and leaves history untouched. -/
theorem file_upload_commit_and_error_paths (resp : Except String FileResponse)
    (s : AppState) :
    (∀ r, resp = .ok r →
      (jsTrim r.transcription ≠ "" ∨ jsTrim r.translation ≠ "") →
      (handleFileUploadResult resp s).history =
        s.history ++ [⟨r.transcription, r.translation⟩] ∧
      (handleFileUploadResult resp s).userTranscript = r.transcription ∧
      (handleFileUploadResult resp s).malayalamTranslation = r.translation ∧
      (handleFileUploadResult resp s).error = none) ∧
    (∀ r, resp = .ok r → r.transcription = "" → r.translation = "" →
      (handleFileUploadResult resp s).history = s.history ∧
      (handleFileUploadResult resp s).error =
        some "Failed to process audio file: Received empty transcription/translation.") ∧
    (∀ m, resp = .error m →
      (handleFileUploadResult resp s).history = s.history ∧
      (handleFileUploadResult resp s).error =
        some ("Failed to process audio file: " ++ fileErrorText m)) := by
  refine ⟨?_, ?_, ?_⟩
  · rintro r rfl hnb
    have hne : r.transcription ≠ "" ∨ r.translation ≠ "" := by
      rcases hnb with h | h
      · exact Or.inl fun he => h (by rw [he]; decide)
      · exact Or.inr fun he => h (by rw [he]; decide)
    simp only [handleFileUploadResult]
    rw [if_pos hne]
    simp
  · rintro r rfl h1 h2
    obtain ⟨t, tr⟩ := r
    simp only at h1 h2
    subst h1; subst h2
    have hmsg : "Failed to process audio file: " ++
        fileErrorText "Received empty transcription/translation." =
        "Failed to process audio file: Received empty transcription/translation." := by
      decide
    simp [handleFileUploadResult, hmsg]
  · rintro m rfl
    simp [handleFileUploadResult]

/-- Witness for C7 at the spec's example response body. -/
theorem file_upload_commit_and_error_paths_witness :
    (handleFileUploadResult (.ok ⟨"hi", "navi"⟩) initialState).history =
      [⟨"hi", "navi"⟩] ∧
    (handleFileUploadResult (.ok ⟨"hi", "navi"⟩) initialState).userTranscript = "hi" ∧
    (handleFileUploadResult (.ok ⟨"hi", "navi"⟩) initialState).malayalamTranslation =
      "navi" := by
  have h := (file_upload_commit_and_error_paths (.ok ⟨"hi", "navi"⟩) initialState).1
    ⟨"hi", "navi"⟩ rfl (Or.inl (by decide))
  exact ⟨by simpa using h.1, h.2.1, h.2.2.1⟩

end Kiliai
